import Mathlib

set_option maxHeartbeats 1000000

/-!
Verification development for the audityzer static-analyzer core: the
vulnerability data model, the reentrancy detector, the analyzer
orchestration (parse, run detectors, merge, stable sort, report), and the
nanosuit energy bookkeeping.  Each Rust function of the source is embedded
as an executable Lean definition; the syntax-tree provider is an external
collaborator and is modelled as an oracle producing trees.
-/

namespace Audityzer

/-- Severity of a finding, a closed enumeration (from `analyzer/mod.rs`). -/
inductive Severity where
  | Critical
  | High
  | Medium
  | Low
  | Info
deriving DecidableEq, Repr, Fintype

/-- A finding, as the `Vulnerability` struct of `analyzer/mod.rs`. -/
structure Vulnerability where
  severity : Severity
  title : String
  description : String
  line : Nat
  column : Nat
  suggestion : Option String
deriving DecidableEq, Repr

/-- A syntax-tree node as the external tree provider hands it to the
analyzer: a grammar kind, the slice of the source text covered by the
node's byte range (carried inline, standing for `source[node.byte_range()]`),
the 0-based start row and column, and the direct children in source order. -/
inductive Node : Type where
  | mk (kind : String) (text : List Char) (row : Nat) (col : Nat)
      (children : List Node)

def Node.kind : Node → String
  | .mk k _ _ _ _ => k

def Node.text : Node → List Char
  | .mk _ t _ _ _ => t

def Node.row : Node → Nat
  | .mk _ _ r _ _ => r

def Node.col : Node → Nat
  | .mk _ _ _ c _ => c

def Node.children : Node → List Node
  | .mk _ _ _ _ cs => cs

/-- Whether `pat` occurs at the start of `l` (model of byte-wise prefix
matching used by Rust `str::contains`). -/
def listStartsWith : List Char → List Char → Bool
  | [], _ => true
  | _ :: _, [] => false
  | a :: as, b :: bs => a == b && listStartsWith as bs

/-- Whether `pat` occurs as a contiguous substring of `hay` (model of Rust
`str::contains` on the node's text slice). -/
def containsSub (hay pat : List Char) : Bool :=
  match hay with
  | [] => pat.isEmpty
  | _ :: rest => listStartsWith pat hay || containsSub rest pat

/-- The external-call marker `.call` followed by an opening brace. -/
def callMarker : List Char := (".call\x7b").data

/-- The external-call marker `.transfer` followed by an opening parenthesis. -/
def transferMarker : List Char := (".transfer(").data

/-- The external-call marker `.send` followed by an opening parenthesis. -/
def sendMarker : List Char := (".send(").data

namespace ReentrancyDetector

/-- From `reentrancy.rs`: `check_external_call` tests whether the node's
source text contains one of the three external-call markers. -/
def check_external_call (node : Node) : Bool :=
  containsSub node.text callMarker || containsSub node.text transferMarker ||
    containsSub node.text sendMarker

/-- The loop body of `check_state_change_after_call`: iterate over the
remaining direct children carrying the `found_call` flag. -/
def scan_children (found : Bool) : List Node → Bool
  | [] => false
  | child :: rest =>
    if check_external_call child then scan_children true rest
    else if found && (child.kind == "assignment_expression") then true
    else scan_children found rest

/-- From `reentrancy.rs`: scan the direct children of a node with the
`found_call` flag initially false. -/
def check_state_change_after_call (node : Node) : Bool :=
  scan_children false node.children

/-- The finding `traverse_node` pushes for a flagged function-definition
node (its literal field values, from `reentrancy.rs`). -/
def reentrancy_finding (node : Node) : Vulnerability :=
  { severity := Severity.Critical
    title := "Reentrancy Vulnerability"
    description := "State change after external call detected"
    line := node.row + 1
    column := node.col + 1
    suggestion := some "Use checks-effects-interactions pattern" }

mutual

/-- From `reentrancy.rs`: `traverse_node` checks the node itself (pushing a
finding when it is a function definition whose child scan fires) and then
recurses into every child in order. -/
def traverse_node : Node → List Vulnerability
  | Node.mk k t r c cs =>
    (if k == "function_definition" &&
        check_state_change_after_call (Node.mk k t r c cs)
      then [reentrancy_finding (Node.mk k t r c cs)] else [])
      ++ traverse_list cs

/-- Traversal of a child list, in source order. -/
def traverse_list : List Node → List Vulnerability
  | [] => []
  | n :: ns => traverse_node n ++ traverse_list ns

end

/-- From `reentrancy.rs`: `detect` starts the traversal at the root. -/
def detect (tree : Node) (_source : List Char) : List Vulnerability :=
  traverse_node tree

end ReentrancyDetector

mutual

/-- All nodes of a tree in depth-first pre-order (the order `traverse_node`
visits them). -/
def allNodes : Node → List Node
  | Node.mk k t r c cs => Node.mk k t r c cs :: allNodesList cs

/-- All nodes of a forest in depth-first pre-order. -/
def allNodesList : List Node → List Node
  | [] => []
  | n :: ns => allNodes n ++ allNodesList ns

end

mutual

/-- The nodes on which `traverse_node` invokes the per-function check
`check_state_change_after_call`, in visit order: exactly the nodes whose
kind is a function definition. -/
def checkedNodes : Node → List Node
  | Node.mk k t r c cs =>
    (if k == "function_definition" then [Node.mk k t r c cs] else [])
      ++ checkedList cs

/-- The checked nodes of a forest, in visit order. -/
def checkedList : List Node → List Node
  | [] => []
  | n :: ns => checkedNodes n ++ checkedList ns

end

/-- From `analyzer/mod.rs`, `impl Ord for Severity`: both severities are
mapped to a numeric value and the values are compared. -/
def Severity.cmp (a b : Severity) : Ordering :=
  let self_val : Nat :=
    match a with
    | .Critical => 4
    | .High => 3
    | .Medium => 2
    | .Low => 1
    | .Info => 0
  let other_val : Nat :=
    match b with
    | .Critical => 4
    | .High => 3
    | .Medium => 2
    | .Low => 1
    | .Info => 0
  compare self_val other_val

/-- The numeric value the source's `Ord` implementation assigns to a
severity (named here for use in statements). -/
def Severity.rank : Severity → Nat
  | .Critical => 4
  | .High => 3
  | .Medium => 2
  | .Low => 1
  | .Info => 0

/-- The registered detectors form a closed set: the real reentrancy
detector and the two stubs of `detectors/mod.rs`. -/
inductive Detector where
  | reentrancy
  | overflow
  | accessControl
deriving DecidableEq

/-- Each detector's stable name. -/
def Detector.name : Detector → String
  | .reentrancy => "reentrancy-detector"
  | .overflow => "overflow-detector"
  | .accessControl => "access-control-detector"

/-- Dispatch of `VulnerabilityDetector::detect`: the reentrancy detector
runs its traversal; the overflow and access-control stubs return an empty
list for every input. -/
def Detector.detect : Detector → Node → List Char → List Vulnerability
  | .reentrancy, tree, source => ReentrancyDetector.detect tree source
  | .overflow, _, _ => []
  | .accessControl, _, _ => []

/-- The comparator `analyze` passes to `sort_by`:
`b.severity.cmp(&a.severity).then_with(|| a.line.cmp(&b.line))`, i.e.
severity descending then line ascending. -/
def vulnCmp (a b : Vulnerability) : Ordering :=
  (Severity.cmp b.severity a.severity).then (compare a.line b.line)

/-- The non-strict order induced by `vulnCmp`: Rust's stable `sort_by`
arranges the list so that no earlier element compares `Greater` with a
later one; a stable sort with this `le` is the unique such rearrangement. -/
def vulnLe (a b : Vulnerability) : Bool :=
  vulnCmp a b != Ordering.gt

mutual

/-- Model of Rust `source.lines().count()`, state at a line boundary:
an empty remainder contributes no further line; a newline closes an empty
line; any other character opens a line. -/
def linesCount : List Char → Nat
  | [] => 0
  | c :: cs => if c = '\n' then 1 + linesCount cs else linesCountIn cs

/-- Model of Rust `source.lines().count()`, state inside an open line:
an empty remainder closes the open line; a newline closes it and returns
to the boundary state. -/
def linesCountIn : List Char → Nat
  | [] => 1
  | c :: cs => if c = '\n' then 1 + linesCount cs else linesCountIn cs

end

/-- Whether the text ends in a newline character. -/
def endsInNewline : List Char → Bool
  | [] => false
  | [c] => c == '\n'
  | _ :: c :: cs => endsInNewline (c :: cs)

/-- Count of newline-delimited segments as the spec describes the report's
line count: one segment per newline, plus a final segment when nonempty
text follows the last newline; the empty source has zero segments. -/
def newlineSegmentCount (s : List Char) : Nat :=
  s.count '\n' + (if endsInNewline s || s.isEmpty then 0 else 1)

/-- The analyzer: the parser is an external collaborator, modelled as an
oracle from source text to an optional tree; the detector registry is
fixed at construction. -/
structure VulnerabilityAnalyzer where
  parse : List Char → Option Node
  detectors : List Detector

/-- From `analyzer/mod.rs`: `new` registers the three detectors in order.
(The grammar-loading failure of the original `new` concerns only the
external parser and is outside the embedded pipeline.) -/
def VulnerabilityAnalyzer.new (p : List Char → Option Node) :
    VulnerabilityAnalyzer :=
  { parse := p
    detectors := [Detector.reentrancy, Detector.overflow, Detector.accessControl] }

/-- The report returned by a successful analysis. -/
structure AnalysisReport where
  vulnerabilities : List Vulnerability
  total_lines : Nat
  detectors_run : Nat
deriving DecidableEq, Repr

/-- From `analyzer/mod.rs`: `analyze` parses (failing when the provider
returns no tree), runs every registered detector in order, merges the
finding lists, stable-sorts by the comparator, and wraps the report.
`analyze` takes and returns the analyzer state (the Rust original borrows
`self` mutably but leaves the registry untouched). -/
def VulnerabilityAnalyzer.analyze (a : VulnerabilityAnalyzer)
    (source : List Char) :
    VulnerabilityAnalyzer × Except String AnalysisReport :=
  match a.parse source with
  | none => (a, Except.error "Failed to parse source code")
  | some tree =>
    let all_vulnerabilities :=
      (a.detectors.map (fun d => d.detect tree source)).flatten
    let sorted := all_vulnerabilities.mergeSort vulnLe
    (a, Except.ok
      { vulnerabilities := sorted
        total_lines := linesCount source
        detectors_run := a.detectors.length })

/-- Operational modes of the nanosuit layer (`nanosuit.rs`). -/
inductive NanosuitMode where
  | Strength
  | Speed
  | Armor
  | Stealth
deriving DecidableEq, Repr

/-- A model of an `f64` value: `some q` is a finite value, `none` is NaN.
Arithmetic on finite values is exact rational arithmetic; infinities are
not modelled. -/
abbrev F64 := Option ℚ

/-- f64 multiplication: NaN is absorbing. -/
def fmul : F64 → F64 → F64
  | some a, some b => some (a * b)
  | _, _ => none

/-- f64 subtraction: NaN is absorbing. -/
def fsub : F64 → F64 → F64
  | some a, some b => some (a - b)
  | _, _ => none

/-- Rust `f64::max`: the larger finite value; when one argument is NaN the
other argument is returned. -/
def fmax : F64 → F64 → F64
  | some a, some b => some (max a b)
  | none, b => b
  | a, none => a

/-- From `nanosuit.rs`: the energy-cost multiplier of each mode. -/
def NanosuitMode.energy_cost : NanosuitMode → ℚ
  | .Strength => 2.5
  | .Speed => 1.0
  | .Armor => 3.0
  | .Stealth => 0.5

/-- The nanosuit analyzer state (`nanosuit.rs`). -/
structure NanosuitAnalyzer where
  current_mode : NanosuitMode
  energy_level : F64

/-- From `nanosuit.rs`: `new` starts in Speed mode with energy 100.0. -/
def NanosuitAnalyzer.new : NanosuitAnalyzer :=
  { current_mode := NanosuitMode.Speed, energy_level := some 100 }

/-- From `nanosuit.rs`: `switch_mode` replaces the current mode (the log
call is ambient output and has no effect on the state). -/
def NanosuitAnalyzer.switch_mode (a : NanosuitAnalyzer)
    (mode : NanosuitMode) : NanosuitAnalyzer :=
  { a with current_mode := mode }

/-- From `nanosuit.rs`: `consume_energy` subtracts the mode's cost times
the duration and clamps the result at 0.0 via `max`. -/
def NanosuitAnalyzer.consume_energy (a : NanosuitAnalyzer)
    (duration_secs : F64) : NanosuitAnalyzer :=
  let cost := fmul (some a.current_mode.energy_cost) duration_secs
  { a with energy_level := fmax (fsub a.energy_level cost) (some 0) }

/-- A call to one of the two mutating operations of `NanosuitAnalyzer`. -/
inductive NanosuitOp where
  | switch (mode : NanosuitMode)
  | consume (duration_secs : F64)

/-- Run a sequence of operations against a nanosuit analyzer state. -/
def runOps (a : NanosuitAnalyzer) : List NanosuitOp → NanosuitAnalyzer
  | [] => a
  | NanosuitOp.switch m :: ops => runOps (a.switch_mode m) ops
  | NanosuitOp.consume d :: ops => runOps (a.consume_energy d) ops

/-! Helper lemmas. -/

/-- The source's `Severity` comparison is comparison of the assigned
numeric values. -/
theorem Severity.cmp_eq_compare_rank (a b : Severity) :
    Severity.cmp a b = compare a.rank b.rank := by
  cases a <;> cases b <;> rfl

/-- The first component of `analyze` is the unchanged analyzer state. -/
theorem analyze_fst (a : VulnerabilityAnalyzer) (source : List Char) :
    (a.analyze source).1 = a := by
  cases h : a.parse source <;> simp [VulnerabilityAnalyzer.analyze, h]

/-- Evaluation of `analyze` when the parser oracle returns a tree. -/
theorem analyze_some (a : VulnerabilityAnalyzer) (source : List Char)
    (tree : Node) (h : a.parse source = some tree) :
    a.analyze source = (a, Except.ok
      { vulnerabilities :=
          ((a.detectors.map (fun d => d.detect tree source)).flatten).mergeSort
            vulnLe
        total_lines := linesCount source
        detectors_run := a.detectors.length }) := by
  simp [VulnerabilityAnalyzer.analyze, h]

/-- Energy stays a nonnegative finite value under any operation sequence. -/
theorem runOps_nonneg_aux (ops : List NanosuitOp) :
    ∀ (a : NanosuitAnalyzer) (q : ℚ), a.energy_level = some q → 0 ≤ q →
      ∃ q2 : ℚ, (runOps a ops).energy_level = some q2 ∧ 0 ≤ q2 := by
  induction ops with
  | nil => exact fun a q h hq => ⟨q, h, hq⟩
  | cons op ops ih =>
    intro a q h hq
    cases op with
    | switch m =>
      simp only [runOps]
      exact ih _ q (by simpa [NanosuitAnalyzer.switch_mode] using h) hq
    | consume d =>
      simp only [runOps]
      cases d with
      | none =>
        exact ih _ 0
          (by simp [NanosuitAnalyzer.consume_energy, h, fmul, fsub, fmax])
          le_rfl
      | some x =>
        exact ih _ (max (q - a.current_mode.energy_cost * x) 0)
          (by simp [NanosuitAnalyzer.consume_energy, h, fmul, fsub, fmax])
          (le_max_right _ _)

/-- Declarative reading of the spec's child scan, spelt from the claim's
words: some direct child at position `j` has kind "assignment_expression"
and no external-call marker in its text, while the flag is true there —
i.e. the flag was passed in true, or some earlier child at position `i`
contains an external-call marker. -/
def callThenAssign (found : Bool) (cs : List Node) : Prop :=
  ∃ j : Nat, ∃ hj : j < cs.length,
    (cs.get ⟨j, hj⟩).kind = "assignment_expression"
    ∧ ReentrancyDetector.check_external_call (cs.get ⟨j, hj⟩) = false
    ∧ (found = true ∨ ∃ i : Nat, ∃ hi : i < cs.length, i < j
        ∧ ReentrancyDetector.check_external_call (cs.get ⟨i, hi⟩) = true)

/-- Unfolding of `callThenAssign` over a cons cell. -/
theorem callThenAssign_cons (found : Bool) (c : Node) (rest : List Node) :
    callThenAssign found (c :: rest) ↔
      (found = true ∧ c.kind = "assignment_expression"
        ∧ ReentrancyDetector.check_external_call c = false)
      ∨ callThenAssign (found || ReentrancyDetector.check_external_call c)
          rest := by
  constructor
  · rintro ⟨j, hj, hk, hm, hcond⟩
    cases j with
    | zero =>
      simp only [List.get] at hk hm
      rcases hcond with hf | ⟨i, hi, hij, _⟩
      · exact Or.inl ⟨hf, hk, hm⟩
      · omega
    | succ j2 =>
      simp only [List.length_cons] at hj
      simp only [List.get] at hk hm
      refine Or.inr ⟨j2, by omega, hk, hm, ?_⟩
      rcases hcond with hf | ⟨i, hi, hij, hmark⟩
      · exact Or.inl (by simp [hf])
      · cases i with
        | zero =>
          simp only [List.get] at hmark
          exact Or.inl (by simp [hmark])
        | succ i2 =>
          simp only [List.length_cons] at hi
          simp only [List.get] at hmark
          exact Or.inr ⟨i2, by omega, by omega, hmark⟩
  · rintro (⟨hf, hk, hm⟩ | ⟨j2, hj2, hk, hm, hcond⟩)
    · exact ⟨0, by simp only [List.length_cons]; omega, hk, hm, Or.inl hf⟩
    · refine ⟨j2 + 1, by simp only [List.length_cons]; omega, hk, hm, ?_⟩
      rcases hcond with hor | ⟨i2, hi2, hij, hmark⟩
      · rcases Bool.or_eq_true _ _ |>.mp hor with hf | hmc
        · exact Or.inl hf
        · exact Or.inr ⟨0, by simp only [List.length_cons]; omega, by omega, hmc⟩
      · exact Or.inr ⟨i2 + 1, by simp only [List.length_cons]; omega,
          by omega, hmark⟩

/-- The child scan returns true exactly when the declarative condition
holds, for any incoming flag value. -/
theorem scan_children_iff (cs : List Node) :
    ∀ found, ReentrancyDetector.scan_children found cs = true
      ↔ callThenAssign found cs := by
  induction cs with
  | nil =>
    intro found
    simp [ReentrancyDetector.scan_children, callThenAssign]
  | cons c rest ih =>
    intro found
    rw [callThenAssign_cons]
    cases hm : ReentrancyDetector.check_external_call c with
    | true =>
      have hl : ReentrancyDetector.scan_children found (c :: rest)
          = ReentrancyDetector.scan_children true rest := by
        simp [ReentrancyDetector.scan_children, hm]
      rw [hl, ih true]
      simp
    | false =>
      cases hk : (c.kind == "assignment_expression") with
      | false =>
        have hl : ReentrancyDetector.scan_children found (c :: rest)
            = ReentrancyDetector.scan_children found rest := by
          simp [ReentrancyDetector.scan_children, hm, hk]
        have hk2 : ¬ c.kind = "assignment_expression" := by simpa using hk
        rw [hl, ih found]
        simp [hk2]
      | true =>
        have hk2 : c.kind = "assignment_expression" := by simpa using hk
        cases found with
        | true =>
          have hl : ReentrancyDetector.scan_children true (c :: rest)
              = true := by
            simp [ReentrancyDetector.scan_children, hm, hk]
          rw [hl]
          simp [hk2]
        | false =>
          have hl : ReentrancyDetector.scan_children false (c :: rest)
              = ReentrancyDetector.scan_children false rest := by
            simp [ReentrancyDetector.scan_children, hm, hk]
          rw [hl, ih false]
          simp

/-- C1: for a function-definition node, the per-function scan of the
direct children (flag initially false) reports a reentrancy pattern
exactly when some direct child of kind "assignment_expression", itself
free of external-call markers, is preceded by a direct child whose text
contains one of the markers; otherwise no finding is produced. -/
theorem reentrancy_scan_characterization :
    ∀ node : Node,
      ReentrancyDetector.check_state_change_after_call node = true
        ↔ callThenAssign false node.children := by
  intro node
  exact scan_children_iff node.children false

/-- Induction over a node granting the hypothesis for every direct child. -/
theorem Node.recOnMem {motive : Node → Prop}
    (step : ∀ k t r c cs, (∀ m, m ∈ cs → motive m)
      → motive (Node.mk k t r c cs)) :
    ∀ n, motive n
  | Node.mk k t r c cs =>
    step k t r c cs (fun m hm => Node.recOnMem step m)
termination_by n => sizeOf n
decreasing_by
  have := List.sizeOf_lt_of_mem hm
  simp only [Node.mk.sizeOf_spec]
  omega

/-- The per-node contribution of the reentrancy traversal: a
function-definition node whose child scan fires yields its finding. -/
def detectStep (n : Node) : Option Vulnerability :=
  if n.kind == "function_definition"
      && ReentrancyDetector.check_state_change_after_call n
    then some (ReentrancyDetector.reentrancy_finding n) else none

/-- Forest version of `traverse_eq_filterMap`. -/
theorem traverse_list_eq (cs : List Node)
    (ih : ∀ m, m ∈ cs →
      ReentrancyDetector.traverse_node m = (allNodes m).filterMap detectStep) :
    ReentrancyDetector.traverse_list cs = (allNodesList cs).filterMap detectStep := by
  induction cs with
  | nil => simp [ReentrancyDetector.traverse_list, allNodesList]
  | cons m ms ihm =>
    simp only [ReentrancyDetector.traverse_list, allNodesList,
      List.filterMap_append]
    rw [ih m (List.mem_cons_self m ms),
      ihm (fun x hx => ih x (List.mem_cons_of_mem m hx))]

/-- The traversal emits, in pre-order, exactly the finding of each
function-definition node whose child scan fires. -/
theorem traverse_eq_filterMap :
    ∀ n : Node,
      ReentrancyDetector.traverse_node n = (allNodes n).filterMap detectStep := by
  intro n
  induction n using Node.recOnMem with
  | step k t r c cs ih =>
    simp only [ReentrancyDetector.traverse_node, allNodes, List.filterMap_cons]
    rw [traverse_list_eq cs ih]
    have hk : (Node.mk k t r c cs).kind = k := rfl
    cases hcond : (k == "function_definition"
        && ReentrancyDetector.check_state_change_after_call (Node.mk k t r c cs)) with
    | true =>
      have hstep : detectStep (Node.mk k t r c cs)
          = some (ReentrancyDetector.reentrancy_finding (Node.mk k t r c cs)) := by
        unfold detectStep
        rw [hk, hcond]
        simp
      rw [hstep]
      simp
    | false =>
      have hstep : detectStep (Node.mk k t r c cs) = none := by
        unfold detectStep
        rw [hk, hcond]
        simp
      rw [hstep]
      simp

/-- Forest version of `checkedNodes_eq_filter`. -/
theorem checkedList_eq (cs : List Node)
    (ih : ∀ m, m ∈ cs →
      checkedNodes m = (allNodes m).filter
        (fun n => n.kind == "function_definition")) :
    checkedList cs = (allNodesList cs).filter
      (fun n => n.kind == "function_definition") := by
  induction cs with
  | nil => simp [checkedList, allNodesList]
  | cons m ms ihm =>
    simp only [checkedList, allNodesList, List.filter_append]
    rw [ih m (List.mem_cons_self m ms),
      ihm (fun x hx => ih x (List.mem_cons_of_mem m hx))]

/-- The checked nodes are the function-definition nodes, in visit order. -/
theorem checkedNodes_eq_filter :
    ∀ tree : Node,
      checkedNodes tree = (allNodes tree).filter
        (fun n => n.kind == "function_definition") := by
  intro tree
  induction tree using Node.recOnMem with
  | step k t r c cs ih =>
    simp only [checkedNodes, allNodes, List.filter_cons]
    simp only [show (Node.mk k t r c cs).kind = k from rfl]
    rw [checkedList_eq cs ih]
    cases hcond : (k == "function_definition") with
    | true => simp
    | false => simp

/-- Characterization of the sort comparator: `a` may precede `b` exactly
when `b` has strictly lower severity, or they have equal severity ranks
and the line numbers are non-decreasing. -/
theorem vulnLe_iff (a b : Vulnerability) :
    vulnLe a b = true ↔
      (b.severity.rank < a.severity.rank
        ∨ (b.severity.rank = a.severity.rank ∧ a.line ≤ b.line)) := by
  unfold vulnLe vulnCmp
  rw [Severity.cmp_eq_compare_rank]
  rcases Nat.lt_trichotomy b.severity.rank a.severity.rank with h | h | h
  · rw [Nat.compare_eq_lt.mpr h]
    exact iff_of_true rfl (Or.inl h)
  · rw [Nat.compare_eq_eq.mpr h]
    rcases Nat.lt_trichotomy a.line b.line with hl | hl | hl
    · rw [show compare a.line b.line = Ordering.lt from Nat.compare_eq_lt.mpr hl]
      exact iff_of_true rfl (Or.inr ⟨h, by omega⟩)
    · rw [show compare a.line b.line = Ordering.eq from Nat.compare_eq_eq.mpr hl]
      exact iff_of_true rfl (Or.inr ⟨h, by omega⟩)
    · rw [show compare a.line b.line = Ordering.gt from Nat.compare_eq_gt.mpr hl]
      have hfalse : (Ordering.eq.then Ordering.gt != Ordering.gt) = false := rfl
      rw [hfalse]
      exact iff_of_false (by simp) (by omega)
  · rw [Nat.compare_eq_gt.mpr h]
    have hfalse : (Ordering.gt.then (compare a.line b.line) != Ordering.gt)
        = false := rfl
    rw [hfalse]
    exact iff_of_false (by simp) (by omega)

/-- The comparator's non-strict order is transitive. -/
theorem vulnLe_trans (a b c : Vulnerability) (hab : vulnLe a b)
    (hbc : vulnLe b c) : vulnLe a c := by
  rw [vulnLe_iff] at *
  omega

/-- The comparator's non-strict order is total. -/
theorem vulnLe_total (a b : Vulnerability) : vulnLe a b || vulnLe b a := by
  rw [Bool.or_eq_true, vulnLe_iff, vulnLe_iff]
  omega

/-! Claim theorems. -/

/-- C2: the detector's walk is a depth-first pre-order traversal that runs
the per-function check on every function-definition node and only those:
its output is the per-node step mapped over all nodes in pre-order, and
the checked nodes are exactly the function-definition nodes of the tree
(nested function definitions included). -/
theorem detect_visits_all_functions :
    (∀ (tree : Node) (source : List Char),
        ReentrancyDetector.detect tree source
          = (allNodes tree).filterMap detectStep)
    ∧ (∀ tree n : Node,
        n ∈ checkedNodes tree
          ↔ n ∈ allNodes tree ∧ n.kind = "function_definition") := by
  constructor
  · intro tree source
    exact traverse_eq_filterMap tree
  · intro tree n
    rw [checkedNodes_eq_filter, List.mem_filter]
    simp

/-- C4: every finding the reentrancy detector reports has severity
Critical, the fixed title, description and suggestion, and a line and
column that are the 1-based start position (0-based row and column plus
one) of a function-definition node of the tree whose child scan fired. -/
theorem reentrancy_finding_shape :
    ∀ (tree : Node) (source : List Char) (v : Vulnerability),
      v ∈ ReentrancyDetector.detect tree source →
      v.severity = Severity.Critical
      ∧ v.title = "Reentrancy Vulnerability"
      ∧ v.description = "State change after external call detected"
      ∧ v.suggestion = some "Use checks-effects-interactions pattern"
      ∧ ∃ n, n ∈ allNodes tree ∧ n.kind = "function_definition"
          ∧ ReentrancyDetector.check_state_change_after_call n = true
          ∧ v.line = n.row + 1 ∧ v.column = n.col + 1 := by
  intro tree source v hv
  rw [show ReentrancyDetector.detect tree source
      = ReentrancyDetector.traverse_node tree from rfl,
    traverse_eq_filterMap tree] at hv
  rcases List.mem_filterMap.mp hv with ⟨n, hn, hstep⟩
  unfold detectStep at hstep
  by_cases hcond : (n.kind == "function_definition"
      && ReentrancyDetector.check_state_change_after_call n) = true
  · rw [if_pos hcond] at hstep
    rcases Bool.and_eq_true _ _ |>.mp hcond with ⟨hkind, hcheck⟩
    have hv2 : v = ReentrancyDetector.reentrancy_finding n :=
      (Option.some.injEq _ _ ▸ hstep).symm
    subst hv2
    refine ⟨rfl, rfl, rfl, rfl, n, hn, by simpa using hkind, hcheck, rfl, rfl⟩
  · rw [if_neg hcond] at hstep
    exact absurd hstep (by simp)

/-- C3: in every successful report the findings are sorted by severity
descending (no entry is preceded by one of strictly lower severity) with
line number ascending within equal severity, and entries tied on both
keys keep their pre-sort order (registration order, then each detector's
internal order), stated as preservation of tied pairs of the merged
pre-sort list. -/
theorem analyze_output_sorted :
    ∀ (a : VulnerabilityAnalyzer) (source : List Char) (tree : Node)
      (r : AnalysisReport),
      a.parse source = some tree →
      (a.analyze source).2 = Except.ok r →
      List.Pairwise (fun u v => v.severity.rank ≤ u.severity.rank)
        r.vulnerabilities
      ∧ List.Pairwise (fun u v => u.severity = v.severity → u.line ≤ v.line)
        r.vulnerabilities
      ∧ (∀ u v : Vulnerability, u.severity = v.severity → u.line = v.line →
          List.Sublist [u, v]
            ((a.detectors.map (fun d => d.detect tree source)).flatten) →
          List.Sublist [u, v] r.vulnerabilities) := by
  intro a source tree r hp hr
  rw [analyze_some a source tree hp] at hr
  have hrec := Except.ok.inj hr
  subst hrec
  have hs := List.sorted_mergeSort vulnLe_trans vulnLe_total
    ((a.detectors.map (fun d => d.detect tree source)).flatten)
  refine ⟨?_, ?_, ?_⟩
  · refine hs.imp ?_
    intro u v huv
    rw [vulnLe_iff] at huv
    omega
  · refine hs.imp ?_
    intro u v huv hsev
    have hrank : u.severity.rank = v.severity.rank := by rw [hsev]
    rw [vulnLe_iff] at huv
    omega
  · intro u v hsev hline hsub
    refine List.pair_sublist_mergeSort vulnLe_trans vulnLe_total ?_ hsub
    rw [vulnLe_iff]
    exact Or.inr ⟨by rw [hsev], by omega⟩

/-- Joint closed form for the two line-counting states: the boundary state
counts one line per newline plus a final unterminated line; the in-line
state additionally counts the line already open. -/
theorem linesCount_spec :
    ∀ s : List Char,
      linesCount s
        = s.count '\n' + (if endsInNewline s || s.isEmpty then 0 else 1)
      ∧ linesCountIn s
        = s.count '\n' + (if endsInNewline s then 0 else 1) := by
  intro s
  induction s with
  | nil => decide
  | cons c cs ih =>
    obtain ⟨ih1, ih2⟩ := ih
    cases cs with
    | nil =>
      by_cases hc : c = '\n'
      · subst hc
        decide
      · constructor
        · simp [linesCount, linesCountIn, hc, List.count_cons, endsInNewline]
        · simp [linesCountIn, hc, List.count_cons, endsInNewline]
    | cons d ds =>
      have hends : endsInNewline (c :: d :: ds) = endsInNewline (d :: ds) :=
        rfl
      by_cases hc : c = '\n'
      · subst hc
        constructor
        · rw [show linesCount ('\n' :: d :: ds) = 1 + linesCount (d :: ds)
              from by simp [linesCount]]
          rw [ih1, hends]
          rw [show ('\n' :: d :: ds).count '\n' = (d :: ds).count '\n' + 1
              from by simp [List.count_cons]]
          cases hnl : endsInNewline (d :: ds) <;> simp [hnl] <;> omega
        · rw [show linesCountIn ('\n' :: d :: ds) = 1 + linesCount (d :: ds)
              from by simp [linesCountIn]]
          rw [ih1, hends]
          rw [show ('\n' :: d :: ds).count '\n' = (d :: ds).count '\n' + 1
              from by simp [List.count_cons]]
          cases hnl : endsInNewline (d :: ds) <;> simp [hnl] <;> omega
      · have hcount : (c :: d :: ds).count '\n' = (d :: ds).count '\n' := by
          simp [List.count_cons, hc]
        constructor
        · rw [show linesCount (c :: d :: ds) = linesCountIn (d :: ds)
              from by simp [linesCount, hc]]
          rw [ih2, hends, hcount]
          cases hnl : endsInNewline (d :: ds) <;> simp [hnl]
        · rw [show linesCountIn (c :: d :: ds) = linesCountIn (d :: ds)
              from by simp [linesCountIn, hc]]
          rw [ih2, hends, hcount]

/-- The iterative line count agrees with the closed-form segment count. -/
theorem linesCount_eq_segments (s : List Char) :
    linesCount s = newlineSegmentCount s :=
  (linesCount_spec s).1

/-- C8: in every successful report `total_lines` is the count of
newline-delimited segments of the source text: one segment per newline
plus a final segment when nonempty text follows the last newline, so the
empty source has zero lines and a trailing newline adds no extra line. -/
theorem report_line_count :
    ∀ (a : VulnerabilityAnalyzer) (source : List Char) (r : AnalysisReport),
      (a.analyze source).2 = Except.ok r →
      r.total_lines = newlineSegmentCount source := by
  intro a source r hr
  cases hp : a.parse source with
  | none => simp [VulnerabilityAnalyzer.analyze, hp] at hr
  | some tree =>
    rw [analyze_some a source tree hp] at hr
    have hrec := Except.ok.inj hr
    subst hrec
    exact linesCount_eq_segments source

/-- C7: the comparison on `Severity` is a total order with
Critical > High > Medium > Low > Info, and two severities compare equal
exactly when they are the same variant. -/
theorem severity_total_order :
    (∀ a b : Severity, Severity.cmp a b = Ordering.eq ↔ a = b)
    ∧ (∀ a b : Severity,
        Severity.cmp a b = Ordering.gt ↔ Severity.cmp b a = Ordering.lt)
    ∧ (∀ a b c : Severity, Severity.cmp a b ≠ Ordering.gt →
        Severity.cmp b c ≠ Ordering.gt → Severity.cmp a c ≠ Ordering.gt)
    ∧ Severity.cmp Severity.Critical Severity.High = Ordering.gt
    ∧ Severity.cmp Severity.High Severity.Medium = Ordering.gt
    ∧ Severity.cmp Severity.Medium Severity.Low = Ordering.gt
    ∧ Severity.cmp Severity.Low Severity.Info = Ordering.gt := by
  decide

/-- C5: `analyze` fails exactly when the parser oracle returns no tree,
the only error value is the parse-failure message, and with a tree every
run returns a report (detectors are total and cannot fail the analysis). -/
theorem analyze_error_iff_parse_failure :
    ∀ (a : VulnerabilityAnalyzer) (source : List Char),
      ((a.analyze source).2 = Except.error "Failed to parse source code"
        ↔ a.parse source = none)
      ∧ (∀ e, (a.analyze source).2 = Except.error e →
          e = "Failed to parse source code")
      ∧ (∀ tree, a.parse source = some tree →
          ∃ r, (a.analyze source).2 = Except.ok r) := by
  intro a source
  cases h : a.parse source with
  | none =>
    refine ⟨by simp [VulnerabilityAnalyzer.analyze, h], ?_, ?_⟩
    · intro e he
      simp [VulnerabilityAnalyzer.analyze, h] at he
      exact he.symm
    · intro tree htree
      simp [h] at htree
  | some tree =>
    refine ⟨by simp [VulnerabilityAnalyzer.analyze, h], ?_, ?_⟩
    · intro e he
      simp [VulnerabilityAnalyzer.analyze, h] at he
    · intro tree2 _
      rw [analyze_some a source tree h]
      exact ⟨_, rfl⟩

/-- C6: every successful run reports `detectors_run` equal to the size of
the registry (three detectors), and the overflow and access-control stubs
return an empty finding list for every tree and source. -/
theorem detectors_always_run :
    ∀ (p : List Char → Option Node) (source : List Char),
      (∀ r, ((VulnerabilityAnalyzer.new p).analyze source).2 = Except.ok r →
        r.detectors_run = (VulnerabilityAnalyzer.new p).detectors.length
          ∧ r.detectors_run = 3)
      ∧ (∀ (tree : Node) (src : List Char),
          Detector.overflow.detect tree src = []
          ∧ Detector.accessControl.detect tree src = []) := by
  intro p source
  refine ⟨?_, fun tree src => ⟨rfl, rfl⟩⟩
  intro r hr
  cases h : (VulnerabilityAnalyzer.new p).parse source with
  | none => simp [VulnerabilityAnalyzer.analyze, h] at hr
  | some tree =>
    simp [VulnerabilityAnalyzer.analyze, h] at hr
    subst hr
    exact ⟨rfl, rfl⟩

/-- C9: running `analyze` twice with the same source text from a freshly
constructed analyzer yields identical results (same findings in the same
order, same line count, same detector count). -/
theorem analyze_deterministic :
    ∀ (p : List Char → Option Node) (source : List Char),
      ((((VulnerabilityAnalyzer.new p).analyze source).1).analyze source).2
        = ((VulnerabilityAnalyzer.new p).analyze source).2 := by
  intro p source
  rw [analyze_fst]

/-- C10: starting from `new` (energy 100.0), any sequence of `switch_mode`
and `consume_energy` calls, with arbitrary duration arguments, leaves the
energy level a nonnegative value: `consume_energy` clamps at 0.0 and
`switch_mode` does not touch the energy level. -/
theorem nanosuit_energy_invariant :
    (∀ ops : List NanosuitOp, ∃ q : ℚ,
        (runOps NanosuitAnalyzer.new ops).energy_level = some q ∧ 0 ≤ q)
    ∧ (∀ (a : NanosuitAnalyzer) (m : NanosuitMode),
        (a.switch_mode m).energy_level = a.energy_level) := by
  constructor
  · intro ops
    exact runOps_nonneg_aux ops NanosuitAnalyzer.new 100 rfl (by norm_num)
  · intro a m
    rfl

/-! Concrete sample inputs used to witness the theorems that carry
hypotheses. -/

/-- A child node whose text contains the call-brace marker. -/
def sampleCall : Node :=
  Node.mk "expression_statement" ("x.call\x7bvalue: 1\x7d(s)").data 1 2 []

/-- A marker-free assignment child following the call. -/
def sampleAssign : Node :=
  Node.mk "assignment_expression" ("balance = 0;").data 2 4 []

/-- A function-definition node exhibiting the reentrancy pattern. -/
def sampleFun : Node :=
  Node.mk "function_definition" [] 0 0 [sampleCall, sampleAssign]

/-- A parser oracle that always produces `sampleFun`. -/
def sampleParse : List Char → Option Node := fun _ => some sampleFun

/-- A freshly constructed analyzer over the sample oracle. -/
def sampleAnalyzer : VulnerabilityAnalyzer :=
  VulnerabilityAnalyzer.new sampleParse

/-- A two-line source text ending in a newline. -/
def sampleSource : List Char := ("a\nb\n").data

/-- The report the sample analysis produces. -/
def sampleReport : AnalysisReport :=
  { vulnerabilities := [ReentrancyDetector.reentrancy_finding sampleFun]
    total_lines := 2
    detectors_run := 3 }

/-- The sample analysis succeeds with the sample report. -/
theorem sample_analyze_ok :
    (sampleAnalyzer.analyze sampleSource).2 = Except.ok sampleReport := by
  have hlist : ((sampleAnalyzer.detectors.map
      (fun d => d.detect sampleFun sampleSource)).flatten)
      = [ReentrancyDetector.reentrancy_finding sampleFun] := by decide
  rw [analyze_some sampleAnalyzer sampleSource sampleFun rfl]
  show Except.ok _ = Except.ok sampleReport
  refine congrArg Except.ok ?_
  rw [hlist, List.mergeSort_singleton]
  decide

/-- Witness for C3 at the sample analysis. -/
theorem analyze_output_sorted_witness :
    sampleAnalyzer.parse sampleSource = some sampleFun
    ∧ (sampleAnalyzer.analyze sampleSource).2 = Except.ok sampleReport
    ∧ (List.Pairwise (fun u v => v.severity.rank ≤ u.severity.rank)
        sampleReport.vulnerabilities
      ∧ List.Pairwise (fun u v => u.severity = v.severity → u.line ≤ v.line)
        sampleReport.vulnerabilities
      ∧ (∀ u v : Vulnerability, u.severity = v.severity → u.line = v.line →
          List.Sublist [u, v] ((sampleAnalyzer.detectors.map
            (fun d => d.detect sampleFun sampleSource)).flatten) →
          List.Sublist [u, v] sampleReport.vulnerabilities)) :=
  ⟨rfl, sample_analyze_ok,
    analyze_output_sorted sampleAnalyzer sampleSource sampleFun sampleReport
      rfl sample_analyze_ok⟩

/-- Witness for C4 at the sample tree. -/
theorem reentrancy_finding_shape_witness :
    ReentrancyDetector.reentrancy_finding sampleFun
        ∈ ReentrancyDetector.detect sampleFun sampleSource
    ∧ ((ReentrancyDetector.reentrancy_finding sampleFun).severity
          = Severity.Critical
      ∧ (ReentrancyDetector.reentrancy_finding sampleFun).title
          = "Reentrancy Vulnerability"
      ∧ (ReentrancyDetector.reentrancy_finding sampleFun).description
          = "State change after external call detected"
      ∧ (ReentrancyDetector.reentrancy_finding sampleFun).suggestion
          = some "Use checks-effects-interactions pattern"
      ∧ ∃ n, n ∈ allNodes sampleFun ∧ n.kind = "function_definition"
          ∧ ReentrancyDetector.check_state_change_after_call n = true
          ∧ (ReentrancyDetector.reentrancy_finding sampleFun).line = n.row + 1
          ∧ (ReentrancyDetector.reentrancy_finding sampleFun).column
              = n.col + 1) :=
  ⟨by decide,
    reentrancy_finding_shape sampleFun sampleSource
      (ReentrancyDetector.reentrancy_finding sampleFun) (by decide)⟩

/-- Witness for C8 at the sample analysis: two newline-delimited segments. -/
theorem report_line_count_witness :
    (sampleAnalyzer.analyze sampleSource).2 = Except.ok sampleReport
    ∧ sampleReport.total_lines = newlineSegmentCount sampleSource :=
  ⟨sample_analyze_ok,
    report_line_count sampleAnalyzer sampleSource sampleReport
      sample_analyze_ok⟩

end Audityzer
